import Mathlib

/-!
Verification of the agentic task-execution controller in `server.ts`
(`runAnalysis`, the tool-call interceptor, the approval gate, the
single-flight scheduler `executeTask`, and the `fix-firecrawl-search`
parameter-correction interceptor), as a shallow embedding in Lean.
-/

/-! Part 1: JSON values (tool-call arguments) -/

/-- Structured JSON-like values, used for tool-call arguments. -/
inductive Json where
  | str (s : String)
  | num (n : Int)
  | bool (b : Bool)
  | null
  | arr (xs : List Json)
  | obj (fields : List (String × Json))

/-- A JS object, as an ordered association list of fields. -/
abbrev JObj := List (String × Json)

/-- The JS test `typeof v === "string"` on a JSON value. -/
def Json.isStr : Json → Bool
  | .str _ => true
  | _ => false

/-- Association-list lookup (JS property read / `Map.get`). -/
def alookup {β : Type} : List (String × β) → String → Option β
  | [], _ => none
  | (k', v) :: rest, k => if k' = k then some v else alookup rest k

/-- Association-list update (JS property write / `Map.set`): replaces the
value at an existing key in place, otherwise appends the binding. -/
def aset {β : Type} : List (String × β) → String → β → List (String × β)
  | [], k, v => [(k, v)]
  | (k', v') :: rest, k, v =>
    if k' = k then (k, v) :: rest else (k', v') :: aset rest k v

theorem alookup_aset_self {β : Type} (o : List (String × β)) (k : String) (v : β) :
    alookup (aset o k v) k = some v := by
  induction o with
  | nil => simp [aset, alookup]
  | cons hd tl ih =>
    obtain ⟨k', v'⟩ := hd
    by_cases h : k' = k
    · simp [aset, h, alookup]
    · simp [aset, h, alookup, ih]

theorem aset_length_le {β : Type} (o : List (String × β)) (k : String) (v : β) :
    (aset o k v).length ≤ o.length + 1 := by
  induction o with
  | nil => simp [aset]
  | cons hd tl ih =>
    obtain ⟨k', v'⟩ := hd
    by_cases h : k' = k
    · simp [aset, h]
    · simpa [aset, h, Nat.succ_le_succ_iff] using ih

/-! Part 2: the `fix-firecrawl-search` loop interceptor -/

/-- A tool call as seen by a loop interceptor: `{ name, args }`, where
`args` may be absent (JS `undefined`/`null`). -/
structure ToolCall where
  name : String
  args : Option JObj

/-- The guard of the correction rule: `Array.isArray(args.sources) &&
typeof args.sources[0] === "string"` (requires `args` to be present). -/
def sourcesNeedsFix : Option JObj → Bool
  | some args =>
    match alookup args "sources" with
    | some (.arr (x :: _)) => x.isStr
    | _ => false
  | none => false

/-- The `fix-firecrawl-search` interceptor method `onToolCall`: when the tool is
`firecrawl_search` and its `sources` argument is an array whose first
element is a string, the argument is rewritten to `[{ type: "web" }]`. -/
def fixFirecrawlSearch (tc : ToolCall) : ToolCall :=
  if tc.name = "firecrawl_search" then
    match tc.args with
    | some args =>
      match alookup args "sources" with
      | some (.arr (x :: _)) =>
        if x.isStr then
          let fixedArgs := aset args "sources" (.arr [.obj [("type", .str "web")]])
          { tc with args := some fixedArgs }
        else tc
      | _ => tc
    | none => tc
  else tc

theorem fixFirecrawlSearch_of_not_needed (tc : ToolCall)
    (h : sourcesNeedsFix tc.args = false) : fixFirecrawlSearch tc = tc := by
  obtain ⟨name, args⟩ := tc
  by_cases hn : name = "firecrawl_search"
  · match args with
    | none => simp [fixFirecrawlSearch, hn]
    | some a =>
      match hs : alookup a "sources" with
      | none => simp [fixFirecrawlSearch, hn, hs]
      | some (.str _) => simp [fixFirecrawlSearch, hn, hs]
      | some (.num _) => simp [fixFirecrawlSearch, hn, hs]
      | some (.bool _) => simp [fixFirecrawlSearch, hn, hs]
      | some .null => simp [fixFirecrawlSearch, hn, hs]
      | some (.obj _) => simp [fixFirecrawlSearch, hn, hs]
      | some (.arr []) => simp [fixFirecrawlSearch, hn, hs]
      | some (.arr (x :: xs)) =>
        have hx : x.isStr = false := by simpa [sourcesNeedsFix, hs] using h
        simp [fixFirecrawlSearch, hn, hs, hx]
  · simp [fixFirecrawlSearch, hn]

/-- Claim C7: the `firecrawl_search` sources-parameter correction is
idempotent — it fires only when the argument is in the deprecated
string-first-array shape (otherwise it is a no-op), and applying the fix
twice to any input yields the same result as applying it once. -/
theorem c7_fix_idempotent :
    (∀ tc : ToolCall, sourcesNeedsFix tc.args = false → fixFirecrawlSearch tc = tc) ∧
    (∀ tc : ToolCall, fixFirecrawlSearch (fixFirecrawlSearch tc) = fixFirecrawlSearch tc) := by
  refine ⟨fixFirecrawlSearch_of_not_needed, fun tc => ?_⟩
  obtain ⟨name, args⟩ := tc
  by_cases hn : name = "firecrawl_search"
  · match args with
    | none =>
      have h0 : fixFirecrawlSearch ⟨name, none⟩ = ⟨name, none⟩ := by
        simp [fixFirecrawlSearch, hn]
      rw [h0, h0]
    | some a =>
      match hs : alookup a "sources" with
      | none => simp [fixFirecrawlSearch, hn, hs]
      | some (.str _) => simp [fixFirecrawlSearch, hn, hs]
      | some (.num _) => simp [fixFirecrawlSearch, hn, hs]
      | some (.bool _) => simp [fixFirecrawlSearch, hn, hs]
      | some .null => simp [fixFirecrawlSearch, hn, hs]
      | some (.obj _) => simp [fixFirecrawlSearch, hn, hs]
      | some (.arr []) => simp [fixFirecrawlSearch, hn, hs]
      | some (.arr (x :: xs)) =>
        by_cases hx : x.isStr = true
        · have h1 : fixFirecrawlSearch ⟨name, some a⟩ =
              ⟨name, some (aset a "sources" (.arr [.obj [("type", .str "web")]]))⟩ := by
            simp [fixFirecrawlSearch, hn, hs, hx]
          rw [h1]
          apply fixFirecrawlSearch_of_not_needed
          simp [sourcesNeedsFix, alookup_aset_self, Json.isStr]
        · have h0 : fixFirecrawlSearch ⟨name, some a⟩ = ⟨name, some a⟩ := by
            simp [fixFirecrawlSearch, hn, hs, hx]
          rw [h0, h0]
  · have h0 : fixFirecrawlSearch ⟨name, args⟩ = ⟨name, args⟩ := by
      simp [fixFirecrawlSearch, hn]
    rw [h0, h0]

/-- Witness for C7 at concrete inputs: the deprecated shape
`{sources: ["web"]}` is stable after one application, and an
already-correct input is untouched. -/
theorem c7_fix_idempotent_witness :
    fixFirecrawlSearch (fixFirecrawlSearch
      ⟨"firecrawl_search", some [("sources", .arr [.str "web"])]⟩) =
      fixFirecrawlSearch ⟨"firecrawl_search", some [("sources", .arr [.str "web"])]⟩ ∧
    fixFirecrawlSearch
        ⟨"firecrawl_search", some [("sources", .arr [.obj [("type", .str "web")]])]⟩ =
      ⟨"firecrawl_search", some [("sources", .arr [.obj [("type", .str "web")]])]⟩ :=
  ⟨c7_fix_idempotent.2 _, c7_fix_idempotent.1 _ (by rfl)⟩

/-! Part 3: the single-flight scheduler (`executeTask`).

The server serializes task executions with a boolean lock `isTaskRunning`
and a FIFO `taskQueue`. JS is single-threaded with run-to-completion, so
each synchronous section of `executeTask` is one atomic step here:
submission (check the lock, then either start or enqueue) and completion
(clear the lock, then dequeue and immediately start the next unit).
Tasks are identified by their submission index. -/

/-- Scheduler state: the boolean lock, the FIFO queue of deferred work, plus
observation lists (currently executing, started-in-order, finished-in-order)
and the next submission index. -/
structure SchedState where
  isTaskRunning : Bool
  taskQueue : List Nat
  active : List Nat
  started : List Nat
  finished : List Nat
  nextId : Nat

/-- Scheduler transitions: a new submission arrives, or the currently
active task finishes (running the `finally` block). -/
inductive SchedStep where
  | submit
  | finishActive

/-- One atomic scheduler transition, translated from `executeTask`:
on submit, if `isTaskRunning` the task is pushed onto `taskQueue`,
otherwise the lock is taken and the task starts; on completion the
`finally` block clears the lock, shifts the queue and starts the next
queued unit (re-entering `executeTask` with the lock free). -/
def schedStep (st : SchedState) (s : SchedStep) : SchedState :=
  match s with
  | .submit =>
    if st.isTaskRunning then
      { st with taskQueue := st.taskQueue ++ [st.nextId], nextId := st.nextId + 1 }
    else
      { st with isTaskRunning := true, active := st.active ++ [st.nextId],
                started := st.started ++ [st.nextId], nextId := st.nextId + 1 }
  | .finishActive =>
    match st.active with
    | [] => st
    | t :: restA =>
      match st.taskQueue with
      | [] =>
        { st with active := restA, finished := st.finished ++ [t],
                  isTaskRunning := false }
      | nxt :: restQ =>
        { st with active := restA ++ [nxt], finished := st.finished ++ [t],
                  isTaskRunning := true, taskQueue := restQ,
                  started := st.started ++ [nxt] }

/-- Initial scheduler state: lock free, empty queue. -/
def schedInit : SchedState :=
  { isTaskRunning := false, taskQueue := [], active := [], started := [],
    finished := [], nextId := 0 }

/-- Run the scheduler over a sequence of transitions. -/
def runSched (steps : List SchedStep) : SchedState :=
  steps.foldl schedStep schedInit

/-- Scheduler invariant: a free lock means nothing active and nothing
queued; at most one task executes at a time; tasks start in submission
order after all earlier ones finished; every submission is accounted for
in FIFO order. -/
def SchedInv (st : SchedState) : Prop :=
  (st.isTaskRunning = false → st.active = [] ∧ st.taskQueue = []) ∧
  st.active.length ≤ 1 ∧
  st.started = st.finished ++ st.active ∧
  st.finished ++ st.active ++ st.taskQueue = List.range st.nextId

theorem schedStep_inv {st : SchedState} (h : SchedInv st) (s : SchedStep) :
    SchedInv (schedStep st s) := by
  obtain ⟨hfree, hlen, hstart, horder⟩ := h
  cases s with
  | submit =>
    by_cases hr : st.isTaskRunning
    · have hstep : schedStep st .submit =
          { st with taskQueue := st.taskQueue ++ [st.nextId],
                    nextId := st.nextId + 1 } := by
        simp [schedStep, hr]
      rw [hstep]
      refine ⟨by simp [hr], hlen, hstart, ?_⟩
      show st.finished ++ st.active ++ (st.taskQueue ++ [st.nextId]) =
        List.range (st.nextId + 1)
      rw [List.range_succ, ← horder]
      simp
    · have hr' : st.isTaskRunning = false := by simpa using hr
      obtain ⟨ha, hq⟩ := hfree hr'
      have hstep : schedStep st .submit =
          { st with isTaskRunning := true, active := st.active ++ [st.nextId],
                    started := st.started ++ [st.nextId],
                    nextId := st.nextId + 1 } := by
        simp [schedStep, hr']
      rw [hstep]
      have hfin : st.finished = List.range st.nextId := by
        simpa [ha, hq] using horder
      refine ⟨by simp, by simp [ha], by simp [hstart, ha], ?_⟩
      show st.finished ++ (st.active ++ [st.nextId]) ++ st.taskQueue =
        List.range (st.nextId + 1)
      simp [ha, hq, List.range_succ, hfin]
  | finishActive =>
    match hA : st.active with
    | [] =>
      have hstep : schedStep st .finishActive = st := by simp [schedStep, hA]
      rw [hstep]
      exact ⟨hfree, hlen, hstart, horder⟩
    | t :: restA =>
      have hrest : restA = [] := by
        rw [hA] at hlen; simpa using hlen
      subst hrest
      have hst : st.started = st.finished ++ [t] := by rw [hstart, hA]
      match hQ : st.taskQueue with
      | [] =>
        have hstep : schedStep st .finishActive =
            { st with active := [], finished := st.finished ++ [t],
                      isTaskRunning := false } := by
          simp [schedStep, hA, hQ]
        rw [hstep]
        have hord : st.finished ++ [t] = List.range st.nextId := by
          simpa [hA, hQ] using horder
        exact ⟨by simp [hQ], by simp, by simp [hst], by simpa [hQ] using hord⟩
      | nxt :: restQ =>
        have hstep : schedStep st .finishActive =
            { st with active := [nxt], finished := st.finished ++ [t],
                      isTaskRunning := true, taskQueue := restQ,
                      started := st.started ++ [nxt] } := by
          simp [schedStep, hA, hQ]
        rw [hstep]
        have hord : st.finished ++ ([t] ++ (nxt :: restQ)) = List.range st.nextId := by
          simpa [hA, hQ] using horder
        exact ⟨by simp, by simp, by simp [hst], by simpa using hord⟩

theorem foldl_schedStep_inv (steps : List SchedStep) :
    ∀ st : SchedState, SchedInv st → SchedInv (steps.foldl schedStep st) := by
  induction steps with
  | nil => intro st h; simpa using h
  | cons s rest ih => intro st h; exact ih _ (schedStep_inv h s)

theorem runSched_inv (steps : List SchedStep) : SchedInv (runSched steps) := by
  have base : SchedInv schedInit := by
    refine ⟨fun _ => ⟨rfl, rfl⟩, by simp [schedInit], rfl, by simp [schedInit]⟩
  exact foldl_schedStep_inv steps schedInit base

/-- Claim C6: at most one task execution is active at a time across the
whole process; submissions arriving while a task runs are queued FIFO and
run to completion strictly in submission order, with the next queued unit
started on completion of the active one — after any sequence of scheduler
transitions, at most one task is active, the finished tasks are exactly
the first submissions in submission order, tasks start only in submission
order after all earlier ones finished, and every submission is accounted
for in FIFO order across finished, active and queued. -/
theorem c6_single_flight (steps : List SchedStep) :
    (runSched steps).active.length ≤ 1 ∧
    (runSched steps).finished = List.range (runSched steps).finished.length ∧
    (runSched steps).started = (runSched steps).finished ++ (runSched steps).active ∧
    (runSched steps).finished ++ (runSched steps).active ++ (runSched steps).taskQueue =
      List.range (runSched steps).nextId := by
  obtain ⟨hfree, hlen, hstart, horder⟩ := runSched_inv steps
  refine ⟨hlen, ?_, hstart, horder⟩
  have hpre : (runSched steps).finished <+: List.range (runSched steps).nextId := by
    refine ⟨(runSched steps).active ++ (runSched steps).taskQueue, ?_⟩
    rw [← horder]; simp
  have htake := List.prefix_iff_eq_take.mp hpre
  have hle : (runSched steps).finished.length ≤ (runSched steps).nextId := by
    simpa using hpre.length_le
  conv_lhs => rw [htake]
  rw [List.take_range, Nat.min_eq_left hle]

/-! Part 4: the analysis run (`runAnalysis`).

The event-consumption loop of `runAnalysis` is a state machine over the
stream of task events. Wall-clock readings (`Date.now() - startTime`) are
supplied as the `elapsed` stamp of each consumed event; fallible
checkpoint creation and random id suffixes are supplied by oracles indexed
by attempt count. -/

/-- JS `s.startsWith(p)`. -/
def jsStartsWith (s p : String) : Bool := p.data.isPrefixOf s.data

/-- Whether `p` occurs as a contiguous subsequence of `l`. -/
def occursIn (p : List Char) : List Char → Bool
  | [] => p.isEmpty
  | c :: rest => p.isPrefixOf (c :: rest) || occursIn p rest

/-- JS `s.includes(p)`. -/
def jsIncludes (s p : String) : Bool := occursIn p.data s.data

/-- JS `Math.round(num / den)` for nonnegative operands: half-up rounding
of the ratio. -/
def jsRound (num den : Nat) : Nat := (2 * num + den) / (2 * den)

/-- Analysis mode. -/
inductive Mode where
  | quick
  | deep
deriving DecidableEq

/-- Per-run configuration: the env-derived `CONFIG` limits plus the
request options consumed by `runAnalysis`. -/
structure RunConfig where
  cfgMaxToolCalls : Nat
  cfgMaxIterations : Nat
  cfgTimeoutMs : Nat
  mode : Mode
  allowWebTools : Bool
  requireToolApproval : Bool
  sessionId : Option String
  previousProgress : Nat

/-- Effective tool-call budget: `isQuickMode ? CONFIG.MAX_TOOL_CALLS : 999`,
forced to `0` when `allowWebTools` is disabled. -/
def RunConfig.maxToolCalls (c : RunConfig) : Nat :=
  let base := if c.mode = .quick then c.cfgMaxToolCalls else 999
  if c.allowWebTools then base else 0

/-- Effective timeout: `isQuickMode ? CONFIG.TIMEOUT_MS : 300000`. -/
def RunConfig.timeout (c : RunConfig) : Nat :=
  if c.mode = .quick then c.cfgTimeoutMs else 300000

/-- External oracles of a run: the `startTime` of the run, the random id
suffixes (`Math.random().toString(36)...`), and the outcome of each
successive `checkpointManager.createCheckpoint` attempt (`none` models a
thrown error). -/
structure RunEnv where
  startTime : Nat
  rand : Nat → String
  cpResult : Nat → Option String

/-- One item of `event.message.content`. -/
inductive ContentItem where
  | text (s : String)
  | nonText

/-- Stream events consumed by the loop. `tool_use` carries the tool name
and the arguments already extracted by the fixed fallback chain
(`toolArgs ?? arguments ?? args ?? input ?? null`). -/
inductive Event where
  | tool_use (toolName : Option String) (toolArgs : Option Json)
  | error (errorMsg : String)
  | message (role : String) (content : List ContentItem)

/-- An event paired with the elapsed wall-clock time at which it is
consumed. -/
structure TimedEvent where
  elapsed : Nat
  ev : Event

/-- A pending approval record, as stored in the `pendingApprovals` map. -/
structure PendingApproval where
  approvalId : String
  sessionId : String
  toolName : String
  toolArgs : Option Json
  timestamp : Nat

/-- The suspension signal thrown by the approval gate. -/
structure PendingApprovalError where
  approvalId : String
  toolName : String
  toolArgs : Option Json
  sessionId : String
  checkpointId : Option String

/-- Mutable state of one `runAnalysis` invocation: the loop-local
variables plus the process-wide approval maps, with `executed` recording
the tool calls that passed all gates, `warnings` counting budget warnings,
and `cpAttempts` / `idsIssued` counting oracle consultations. -/
structure LoopState where
  toolCallCount : Nat
  hasWarned : Bool
  interrupted : Bool
  finalOutput : String
  lastCheckpointId : Option String
  executed : List (Option String)
  warnings : Nat
  pendingApprovals : List (String × PendingApproval)
  approvedTools : List (String × Bool)
  cpAttempts : Nat
  idsIssued : Nat

/-- Fresh loop state over given process-wide approval maps. -/
def initState (pending : List (String × PendingApproval))
    (approved : List (String × Bool)) : LoopState :=
  { toolCallCount := 0, hasWarned := false, interrupted := false,
    finalOutput := "", lastCheckpointId := none, executed := [],
    warnings := 0, pendingApprovals := pending, approvedTools := approved,
    cpAttempts := 0, idsIssued := 0 }

/-- Outcome of processing one event: continue the loop, break on timeout,
or throw `PendingApprovalError`. -/
inductive StepOut where
  | next (st : LoopState)
  | timeoutBrk (st : LoopState)
  | suspend (e : PendingApprovalError) (st : LoopState)

/-- The state carried by a step outcome. -/
def StepOut.state : StepOut → LoopState
  | .next st => st
  | .timeoutBrk st => st
  | .suspend _ st => st

/-- The approval id template
`approval_${Date.now()}_${random-suffix}`. -/
def approvalIdAt (env : RunEnv) (elapsed idIdx : Nat) : String :=
  "approval_" ++ Nat.repr (env.startTime + elapsed) ++ "_" ++ env.rand idIdx

/-- Concatenation of the `text` items of a message content list. -/
def concatTexts : List ContentItem → String
  | [] => ""
  | .text s :: rest => s ++ concatTexts rest
  | .nonText :: rest => concatTexts rest

/-- The tool-call-limit check (`toolCallCount > maxToolCalls`): warn and
mark interrupted once, skip while over budget, otherwise the call
proceeds to execution. -/
def budgetCheck (cfg : RunConfig) (st : LoopState) (tn : Option String) : StepOut :=
  if cfg.maxToolCalls < st.toolCallCount then
    if st.hasWarned then .next st
    else
      .next { st with hasWarned := true, interrupted := true,
                      warnings := st.warnings + 1 }
  else .next { st with executed := st.executed ++ [tn] }

/-- Processing of a `tool_use` event after the counter increment: the
firecrawl approval gate (checkpoint attempt, `PendingApproval` allocation
and suspension on an undecided tool; skip on rejection), then the budget
check. -/
def stepToolUse (env : RunEnv) (cfg : RunConfig) (st : LoopState)
    (tn : Option String) (ta : Option Json) (elapsed : Nat) : StepOut :=
  match tn, cfg.sessionId with
  | some t, some s =>
    if cfg.requireToolApproval ∧ t ≠ "" ∧ jsStartsWith t "firecrawl_" = true ∧ s ≠ "" then
      match alookup st.approvedTools (s ++ ":" ++ t) with
      | none =>
        let saved := env.cpResult st.cpAttempts
        let aid := approvalIdAt env elapsed st.idsIssued
        let pa : PendingApproval :=
          { approvalId := aid, sessionId := s, toolName := t, toolArgs := ta,
            timestamp := env.startTime + elapsed }
        let st' :=
          { st with cpAttempts := st.cpAttempts + 1,
                    idsIssued := st.idsIssued + 1,
                    pendingApprovals := aset st.pendingApprovals aid pa }
        .suspend { approvalId := aid, toolName := t, toolArgs := ta,
                   sessionId := s, checkpointId := saved } st'
      | some false => .next st
      | some true => budgetCheck cfg st (some t)
    else budgetCheck cfg st (some t)
  | _, _ => budgetCheck cfg st tn

/-- Processing of an `error` event: the secondary gate for errors matching
the firecrawl signatures (suspension with no checkpoint attempt when
undecided), otherwise the error is ignored and the loop continues. -/
def stepError (env : RunEnv) (cfg : RunConfig) (st : LoopState)
    (msg : String) (elapsed : Nat) : StepOut :=
  let isFcSearch := jsIncludes msg "firecrawl_search"
  let isFc := isFcSearch || jsIncludes msg "firecrawl_scrape"
  match cfg.sessionId with
  | some s =>
    if cfg.requireToolApproval ∧ isFc = true ∧ s ≠ "" then
      let t := if isFcSearch then "firecrawl_search" else "firecrawl_scrape"
      match alookup st.approvedTools (s ++ ":" ++ t) with
      | none =>
        let aid := approvalIdAt env elapsed st.idsIssued
        let pa : PendingApproval :=
          { approvalId := aid, sessionId := s, toolName := t,
            toolArgs := some (.obj [("note", .str "Tool parameters will be fixed after approval")]),
            timestamp := env.startTime + elapsed }
        let st' :=
          { st with idsIssued := st.idsIssued + 1,
                    pendingApprovals := aset st.pendingApprovals aid pa }
        .suspend { approvalId := aid, toolName := t,
                   toolArgs := some (.obj [("note", .str "Tool will be called with corrected parameters")]),
                   sessionId := s, checkpointId := none } st'
      | some _ => .next st
    else .next st
  | none => .next st

/-- One iteration of the `for await` loop: the timeout check, then
dispatch on the event type (the tool-call counter is incremented before
the approval gate and the budget check; assistant message text is
appended to the accumulated output). -/
def stepEvent (env : RunEnv) (cfg : RunConfig) (st : LoopState) (te : TimedEvent) : StepOut :=
  if cfg.timeout < te.elapsed then
    .timeoutBrk { st with interrupted := true }
  else
    match te.ev with
    | .tool_use tn ta =>
      stepToolUse env cfg { st with toolCallCount := st.toolCallCount + 1 } tn ta te.elapsed
    | .error msg => stepError env cfg st msg te.elapsed
    | .message role content =>
      if role = "assistant" then
        .next { st with finalOutput := st.finalOutput ++ concatTexts content }
      else .next st

/-- How the event loop ended. -/
inductive LoopOutcome where
  | completed
  | timedOut
  | suspended (e : PendingApprovalError)

/-- The event-consumption loop. -/
def runLoop (env : RunEnv) (cfg : RunConfig) : LoopState → List TimedEvent → LoopState × LoopOutcome
  | st, [] => (st, .completed)
  | st, te :: rest =>
    match stepEvent env cfg st te with
    | .next st' => runLoop env cfg st' rest
    | .timeoutBrk st' => (st', .timedOut)
    | .suspend e st' => (st', .suspended e)

/-- The value returned by `runAnalysis`. -/
structure AnalysisResult where
  report : String
  checkpointId : Option String
  interrupted : Bool
  progress : Nat
  needsApproval : Bool
  approvalId : Option String
  toolName : Option String
  toolArgs : Option Json

/-- Normal finalization after the loop: auto-save a checkpoint when
interrupted, then the progress estimate (tool-based when the budget is
positive, time-based otherwise, both capped at 95 when interrupted; 100
when not interrupted). `tEnd` is the elapsed wall-clock time at
finalization. -/
def finalizeNormal (env : RunEnv) (cfg : RunConfig) (st : LoopState) (tEnd : Nat) :
    AnalysisResult × LoopState :=
  let st1 :=
    if st.interrupted then
      match env.cpResult st.cpAttempts with
      | some c => { st with lastCheckpointId := some c, cpAttempts := st.cpAttempts + 1 }
      | none => { st with cpAttempts := st.cpAttempts + 1 }
    else st
  let progressPct :=
    if st1.interrupted then
      if 0 < cfg.maxToolCalls then
        min 95 (jsRound (100 * st1.toolCallCount) cfg.maxToolCalls)
      else
        min 95 (cfg.previousProgress + jsRound (100 * tEnd) cfg.timeout)
    else 100
  ({ report := st1.finalOutput, checkpointId := st1.lastCheckpointId,
     interrupted := st1.interrupted, progress := progressPct,
     needsApproval := false, approvalId := none, toolName := none,
     toolArgs := none }, st1)

/-- The `PendingApprovalError` catch handler of `runAnalysis`: reuse the checkpoint saved
by the gate, or else attempt one fallback checkpoint save; then return the
approval response immediately (uncapped time-based progress,
`interrupted = true`). -/
def approvalResponse (env : RunEnv) (cfg : RunConfig) (st : LoopState)
    (e : PendingApprovalError) (tEnd : Nat) : AnalysisResult × LoopState :=
  let st1 :=
    match e.checkpointId with
    | some _ => st
    | none =>
      match env.cpResult st.cpAttempts with
      | some c => { st with lastCheckpointId := some c, cpAttempts := st.cpAttempts + 1 }
      | none => { st with cpAttempts := st.cpAttempts + 1 }
  let cpId :=
    match e.checkpointId with
    | some c => some c
    | none => st1.lastCheckpointId
  ({ report := st.finalOutput, checkpointId := cpId, interrupted := true,
     progress := jsRound (100 * tEnd) cfg.timeout, needsApproval := true,
     approvalId := some e.approvalId, toolName := some e.toolName,
     toolArgs := e.toolArgs }, st1)

/-- The body of `runAnalysis` from a given loop state: consume the stream, then take
the approval-suspension return path or the normal finalization path. -/
def runAnalysisFrom (env : RunEnv) (cfg : RunConfig) (st : LoopState)
    (events : List TimedEvent) (tEnd : Nat) : AnalysisResult × LoopState :=
  match runLoop env cfg st events with
  | (st', .suspended e) => approvalResponse env cfg st' e tEnd
  | (st', .completed) => finalizeNormal env cfg st' tEnd
  | (st', .timedOut) => finalizeNormal env cfg st' tEnd

/-- Number of `tool_use` events in a stream. -/
def countToolUses : List TimedEvent → Nat
  | [] => 0
  | te :: rest =>
    match te.ev with
    | .tool_use _ _ => countToolUses rest + 1
    | _ => countToolUses rest

/-- Concatenated assistant text of a stream. -/
def assistantText : List TimedEvent → String
  | [] => ""
  | te :: rest =>
    match te.ev with
    | .message role content =>
      (if role = "assistant" then concatTexts content else "") ++ assistantText rest
    | _ => assistantText rest

/-- Names of the tool calls that pass the budget check, given budget `B`
and `k` calls already counted. -/
def execNames (B : Nat) : Nat → List TimedEvent → List (Option String)
  | _, [] => []
  | k, te :: rest =>
    match te.ev with
    | .tool_use tn _ =>
      if B < k + 1 then execNames B (k + 1) rest else tn :: execNames B (k + 1) rest
    | _ => execNames B k rest

/-- Number of pending approvals recorded for a `(session, tool)` pair. -/
def countPendingFor (l : List (String × PendingApproval)) (s t : String) : Nat :=
  (l.filter (fun p => p.2.sessionId == s && p.2.toolName == t)).length

/-! Part 5: characterization of gate-free runs. -/

theorem runLoop_cons_next {env : RunEnv} {cfg : RunConfig} {st st' : LoopState}
    {te : TimedEvent} (h : stepEvent env cfg st te = .next st')
    (rest : List TimedEvent) :
    runLoop env cfg st (te :: rest) = runLoop env cfg st' rest := by
  rw [runLoop, h]

theorem runLoop_cons_suspend {env : RunEnv} {cfg : RunConfig} {st st' : LoopState}
    {te : TimedEvent} {e : PendingApprovalError}
    (h : stepEvent env cfg st te = .suspend e st')
    (rest : List TimedEvent) :
    runLoop env cfg st (te :: rest) = (st', .suspended e) := by
  rw [runLoop, h]

theorem stepError_noGate (env : RunEnv) (cfg : RunConfig) (st : LoopState)
    (msg : String) (e : Nat) (hreq : cfg.requireToolApproval = false) :
    stepError env cfg st msg e = .next st := by
  unfold stepError
  cases cfg.sessionId with
  | none => rfl
  | some s => simp [hreq]

theorem stepToolUse_noGate (env : RunEnv) (cfg : RunConfig) (st : LoopState)
    (tn : Option String) (ta : Option Json) (e : Nat)
    (hreq : cfg.requireToolApproval = false) :
    stepToolUse env cfg st tn ta e = budgetCheck cfg st tn := by
  unfold stepToolUse
  match tn, cfg.sessionId with
  | some t, some s => simp [hreq]
  | some t, none => rfl
  | none, some s => rfl
  | none, none => rfl

theorem runLoop_noGate_char (env : RunEnv) (cfg : RunConfig)
    (hreq : cfg.requireToolApproval = false) :
    ∀ (events : List TimedEvent) (st : LoopState),
      (∀ te ∈ events, te.elapsed ≤ cfg.timeout) →
      runLoop env cfg st events =
        ({ st with
           toolCallCount := st.toolCallCount + countToolUses events,
           finalOutput := st.finalOutput ++ assistantText events,
           executed := st.executed ++ execNames cfg.maxToolCalls st.toolCallCount events,
           hasWarned := st.hasWarned ||
             decide (0 < countToolUses events ∧
               cfg.maxToolCalls < st.toolCallCount + countToolUses events),
           interrupted := st.interrupted ||
             (!st.hasWarned &&
               decide (0 < countToolUses events ∧
                 cfg.maxToolCalls < st.toolCallCount + countToolUses events)),
           warnings := st.warnings +
             (if st.hasWarned then 0
              else if 0 < countToolUses events ∧
                  cfg.maxToolCalls < st.toolCallCount + countToolUses events then 1
              else 0) },
         .completed) := by
  intro events
  induction events with
  | nil =>
    intro st _
    simp [runLoop, countToolUses, assistantText, execNames]
  | cons te rest ih =>
    intro st htime
    obtain ⟨e, ev⟩ := te
    have hte : e ≤ cfg.timeout := htime ⟨e, ev⟩ (List.mem_cons_self _ _)
    have hrest : ∀ t ∈ rest, t.elapsed ≤ cfg.timeout :=
      fun t ht => htime t (List.mem_cons_of_mem _ ht)
    have hnt : ¬ cfg.timeout < e := by omega
    cases ev with
    | message role content =>
      by_cases hrole : role = "assistant"
      · have hstep : stepEvent env cfg st ⟨e, .message role content⟩ =
            .next { st with finalOutput := st.finalOutput ++ concatTexts content } := by
          simp [stepEvent, hnt, hrole]
        rw [runLoop_cons_next hstep, ih _ hrest]
        simp [countToolUses, assistantText, execNames, hrole, String.append_assoc]
      · have hstep : stepEvent env cfg st ⟨e, .message role content⟩ = .next st := by
          simp [stepEvent, hnt, hrole]
        rw [runLoop_cons_next hstep, ih _ hrest]
        simp [countToolUses, assistantText, execNames, hrole]
    | error msg =>
      have hstep : stepEvent env cfg st ⟨e, .error msg⟩ = .next st := by
        simp [stepEvent, hnt, stepError_noGate env cfg st msg e hreq]
      rw [runLoop_cons_next hstep, ih _ hrest]
      simp [countToolUses, assistantText, execNames]
    | tool_use tn ta =>
      have hstep : stepEvent env cfg st ⟨e, .tool_use tn ta⟩ =
          budgetCheck cfg { st with toolCallCount := st.toolCallCount + 1 } tn := by
        simp [stepEvent, hnt, stepToolUse_noGate env cfg _ tn ta e hreq]
      by_cases hb : cfg.maxToolCalls < st.toolCallCount + 1
      · by_cases hw : st.hasWarned = true
        · have hbc : budgetCheck cfg { st with toolCallCount := st.toolCallCount + 1 } tn =
              .next { st with toolCallCount := st.toolCallCount + 1 } := by
            simp [budgetCheck, hb, hw]
          rw [runLoop_cons_next (hstep.trans hbc), ih _ hrest]
          simp only [countToolUses, assistantText, execNames]
          rw [if_pos hb]
          simp [hw]
          omega
        · have hw' : st.hasWarned = false := by simpa using hw
          have hbc : budgetCheck cfg { st with toolCallCount := st.toolCallCount + 1 } tn =
              .next { st with toolCallCount := st.toolCallCount + 1, hasWarned := true,
                              interrupted := true, warnings := st.warnings + 1 } := by
            simp [budgetCheck, hb, hw']
          rw [runLoop_cons_next (hstep.trans hbc), ih _ hrest]
          simp only [countToolUses, assistantText, execNames]
          rw [if_pos hb]
          have hcond : (0 < countToolUses rest + 1 ∧
              cfg.maxToolCalls < st.toolCallCount + (countToolUses rest + 1)) := by omega
          simp [hw', hcond]
          omega
      · have hbc : budgetCheck cfg { st with toolCallCount := st.toolCallCount + 1 } tn =
            .next { st with toolCallCount := st.toolCallCount + 1,
                            executed := st.executed ++ [tn] } := by
          simp [budgetCheck, hb]
        rw [runLoop_cons_next (hstep.trans hbc), ih _ hrest]
        simp only [countToolUses, assistantText, execNames]
        rw [if_neg hb]
        have hiff : (0 < countToolUses rest ∧
            cfg.maxToolCalls < st.toolCallCount + 1 + countToolUses rest) ↔
            (0 < countToolUses rest + 1 ∧
            cfg.maxToolCalls < st.toolCallCount + (countToolUses rest + 1)) := by
          constructor <;> intro h' <;> omega
        simp [hiff]
        omega

/-! Part 6: finalization helpers, concrete instances, and the claims. -/

theorem runAnalysisFrom_completed {env : RunEnv} {cfg : RunConfig} {st st' : LoopState}
    {events : List TimedEvent} (h : runLoop env cfg st events = (st', .completed))
    (tEnd : Nat) :
    runAnalysisFrom env cfg st events tEnd = finalizeNormal env cfg st' tEnd := by
  rw [runAnalysisFrom, h]

theorem runAnalysisFrom_timedOut {env : RunEnv} {cfg : RunConfig} {st st' : LoopState}
    {events : List TimedEvent} (h : runLoop env cfg st events = (st', .timedOut))
    (tEnd : Nat) :
    runAnalysisFrom env cfg st events tEnd = finalizeNormal env cfg st' tEnd := by
  rw [runAnalysisFrom, h]

theorem runAnalysisFrom_suspended {env : RunEnv} {cfg : RunConfig} {st st' : LoopState}
    {events : List TimedEvent} {e : PendingApprovalError}
    (h : runLoop env cfg st events = (st', .suspended e)) (tEnd : Nat) :
    runAnalysisFrom env cfg st events tEnd = approvalResponse env cfg st' e tEnd := by
  rw [runAnalysisFrom, h]

theorem finalizeNormal_fields (env : RunEnv) (cfg : RunConfig) (st : LoopState) (tEnd : Nat) :
    (finalizeNormal env cfg st tEnd).1.interrupted = st.interrupted ∧
    (finalizeNormal env cfg st tEnd).1.report = st.finalOutput ∧
    (finalizeNormal env cfg st tEnd).2.warnings = st.warnings ∧
    (finalizeNormal env cfg st tEnd).2.executed = st.executed ∧
    (finalizeNormal env cfg st tEnd).2.pendingApprovals = st.pendingApprovals := by
  by_cases hi : st.interrupted = true <;> cases hcp : env.cpResult st.cpAttempts <;>
    simp [finalizeNormal, hi, hcp]

theorem finalizeNormal_progress (env : RunEnv) (cfg : RunConfig) (st : LoopState) (tEnd : Nat) :
    (finalizeNormal env cfg st tEnd).1.interrupted = st.interrupted ∧
    (st.interrupted = true → (finalizeNormal env cfg st tEnd).1.progress ≤ 95) ∧
    (st.interrupted = false → (finalizeNormal env cfg st tEnd).1.progress = 100) := by
  refine ⟨?_, ?_, ?_⟩
  · by_cases hi : st.interrupted = true <;> cases hcp : env.cpResult st.cpAttempts <;>
      simp [finalizeNormal, hi, hcp]
  · intro hi
    cases hcp : env.cpResult st.cpAttempts <;> by_cases hB : 0 < cfg.maxToolCalls <;>
      simp [finalizeNormal, hi, hcp, hB, Nat.min_le_left]
  · intro hi
    simp [finalizeNormal, hi]

/-- The effective budget is zero whenever web tools are disabled. -/
theorem maxToolCalls_zero {cfg : RunConfig} (hweb : cfg.allowWebTools = false) :
    cfg.maxToolCalls = 0 := by
  simp [RunConfig.maxToolCalls, hweb]

theorem execNames_zero (events : List TimedEvent) : ∀ k, execNames 0 k events = [] := by
  induction events with
  | nil => intro k; rfl
  | cons te rest ih =>
    intro k
    obtain ⟨e, ev⟩ := te
    cases ev <;> simp [execNames, ih]

theorem execNames_length (B : Nat) (events : List TimedEvent) :
    ∀ k, (execNames B k events).length = min (countToolUses events) (B - k) := by
  induction events with
  | nil => intro k; simp [execNames, countToolUses]
  | cons te rest ih =>
    intro k
    obtain ⟨e, ev⟩ := te
    cases ev with
    | tool_use tn ta =>
      by_cases hb : B < k + 1
      · have h0 : B - k = 0 := by omega
        have h1 : B - (k + 1) = 0 := by omega
        simp [execNames, countToolUses, hb, ih, h0, h1]
      · have h1 : B - k = (B - (k + 1)) + 1 := by omega
        simp [execNames, countToolUses, hb, ih, h1, Nat.succ_min_succ]
    | error msg => simp [execNames, countToolUses, ih]
    | message role content => simp [execNames, countToolUses, ih]

/-- Concrete oracles: `Date.now()` base 0, random suffix `r1`, every
checkpoint attempt succeeds as `cp1`. -/
def envA : RunEnv := { startTime := 0, rand := fun _ => "r1", cpResult := fun _ => some "cp1" }

/-- Concrete oracles for a second, distinct run: random suffix `r2`. -/
def envB : RunEnv := { startTime := 0, rand := fun _ => "r2", cpResult := fun _ => some "cp2" }

/-- Deep mode with web tools disabled (effective budget 0), no approval. -/
def cfgDeepNoWeb : RunConfig :=
  { cfgMaxToolCalls := 5, cfgMaxIterations := 20, cfgTimeoutMs := 120000,
    mode := .deep, allowWebTools := false, requireToolApproval := false,
    sessionId := none, previousProgress := 0 }

/-- Quick mode with default limits, approval required, session `s1`. -/
def cfgQuickGated : RunConfig :=
  { cfgMaxToolCalls := 5, cfgMaxIterations := 20, cfgTimeoutMs := 120000,
    mode := .quick, allowWebTools := true, requireToolApproval := true,
    sessionId := some "s1", previousProgress := 0 }

/-- Quick mode with default limits, no approval gating. -/
def cfgQuickPlain : RunConfig :=
  { cfgMaxToolCalls := 5, cfgMaxIterations := 20, cfgTimeoutMs := 120000,
    mode := .quick, allowWebTools := true, requireToolApproval := false,
    sessionId := none, previousProgress := 0 }

theorem budgetCheck_count (cfg : RunConfig) (st : LoopState) (tn : Option String) :
    (budgetCheck cfg st tn).state.toolCallCount = st.toolCallCount := by
  unfold budgetCheck
  split
  · split <;> rfl
  · rfl

theorem stepToolUse_count (env : RunEnv) (cfg : RunConfig) (st : LoopState)
    (tn : Option String) (ta : Option Json) (e : Nat) :
    (stepToolUse env cfg st tn ta e).state.toolCallCount = st.toolCallCount := by
  unfold stepToolUse
  split
  · split
    · split
      · rfl
      · rfl
      · exact budgetCheck_count cfg st _
    · exact budgetCheck_count cfg st _
  · exact budgetCheck_count cfg st _

/-- Claim C10: the per-run tool-call counter is incremented by exactly one
for every `tool_use` event, regardless of mode, before the approval gate
and the budget check run — so skipped calls, rejected calls and the gated
call that suspends the run all count in the state used by the budget
comparison and the progress computation. -/
theorem c10_counter_increment (env : RunEnv) (cfg : RunConfig) (st : LoopState)
    (tn : Option String) (ta : Option Json) (e : Nat) (h : e ≤ cfg.timeout) :
    (stepEvent env cfg st ⟨e, .tool_use tn ta⟩).state.toolCallCount =
      st.toolCallCount + 1 := by
  have hnt : ¬ cfg.timeout < e := by omega
  simp only [stepEvent, if_neg hnt]
  rw [stepToolUse_count]

/-- Witness for C10 at a concrete gated call. -/
theorem c10_counter_increment_witness :
    (stepEvent envA cfgQuickGated (initState [] [])
      ⟨0, .tool_use (some "firecrawl_search") none⟩).state.toolCallCount =
      (initState [] []).toolCallCount + 1 :=
  c10_counter_increment envA cfgQuickGated (initState [] [])
    (some "firecrawl_search") none 0 (by decide)

/-- Claim C3: with a positive budget `B` and more than `B` tool calls in
the stream (no approval gating), the run ends interrupted, exactly one
warning is emitted, exactly the first `B` calls pass to execution (every
later call is skipped), and stream consumption continues to the end so
all assistant message text is still appended to the report. -/
theorem c3_budget_exceeded (env : RunEnv) (cfg : RunConfig)
    (events : List TimedEvent) (tEnd : Nat)
    (pend : List (String × PendingApproval)) (appr : List (String × Bool))
    (hreq : cfg.requireToolApproval = false)
    (hB : 0 < cfg.maxToolCalls)
    (htime : ∀ te ∈ events, te.elapsed ≤ cfg.timeout)
    (hN : cfg.maxToolCalls < countToolUses events) :
    (runAnalysisFrom env cfg (initState pend appr) events tEnd).1.interrupted = true ∧
    (runAnalysisFrom env cfg (initState pend appr) events tEnd).2.warnings = 1 ∧
    (runAnalysisFrom env cfg (initState pend appr) events tEnd).2.executed =
      execNames cfg.maxToolCalls 0 events ∧
    (runAnalysisFrom env cfg (initState pend appr) events tEnd).2.executed.length =
      cfg.maxToolCalls ∧
    (runAnalysisFrom env cfg (initState pend appr) events tEnd).1.report =
      assistantText events := by
  have hchar := runLoop_noGate_char env cfg hreq events (initState pend appr) htime
  have hrun := runAnalysisFrom_completed hchar tEnd
  rw [hrun]
  have hc : (0 < countToolUses events ∧
      cfg.maxToolCalls < 0 + countToolUses events) := by omega
  refine ⟨?_, ?_, ?_, ?_, ?_⟩
  · rw [(finalizeNormal_fields env cfg _ tEnd).1]
    simp [initState, decide_eq_true_eq]
    omega
  · rw [(finalizeNormal_fields env cfg _ tEnd).2.2.1]
    have hc2 : (0 < countToolUses events ∧ cfg.maxToolCalls < countToolUses events) := by
      omega
    simp [initState, hc, hc2]
  · rw [(finalizeNormal_fields env cfg _ tEnd).2.2.2.1]
    simp [initState]
  · rw [(finalizeNormal_fields env cfg _ tEnd).2.2.2.1]
    simp [initState, execNames_length]
    omega
  · rw [(finalizeNormal_fields env cfg _ tEnd).2.1]
    simp [initState, String.empty_append]

/-- Witness for C3: budget 5, six tool calls then a trailing assistant
message. -/
theorem c3_budget_exceeded_witness :
    (runAnalysisFrom envA cfgQuickPlain (initState [] [])
      [⟨0, .tool_use (some "t1") none⟩, ⟨1, .tool_use (some "t2") none⟩,
       ⟨2, .tool_use (some "t3") none⟩, ⟨3, .tool_use (some "t4") none⟩,
       ⟨4, .tool_use (some "t5") none⟩, ⟨5, .tool_use (some "t6") none⟩,
       ⟨6, .message "assistant" [.text "done"]⟩] 6).1.interrupted = true ∧
    (runAnalysisFrom envA cfgQuickPlain (initState [] [])
      [⟨0, .tool_use (some "t1") none⟩, ⟨1, .tool_use (some "t2") none⟩,
       ⟨2, .tool_use (some "t3") none⟩, ⟨3, .tool_use (some "t4") none⟩,
       ⟨4, .tool_use (some "t5") none⟩, ⟨5, .tool_use (some "t6") none⟩,
       ⟨6, .message "assistant" [.text "done"]⟩] 6).2.warnings = 1 ∧
    (runAnalysisFrom envA cfgQuickPlain (initState [] [])
      [⟨0, .tool_use (some "t1") none⟩, ⟨1, .tool_use (some "t2") none⟩,
       ⟨2, .tool_use (some "t3") none⟩, ⟨3, .tool_use (some "t4") none⟩,
       ⟨4, .tool_use (some "t5") none⟩, ⟨5, .tool_use (some "t6") none⟩,
       ⟨6, .message "assistant" [.text "done"]⟩] 6).2.executed =
      execNames cfgQuickPlain.maxToolCalls 0
        [⟨0, .tool_use (some "t1") none⟩, ⟨1, .tool_use (some "t2") none⟩,
         ⟨2, .tool_use (some "t3") none⟩, ⟨3, .tool_use (some "t4") none⟩,
         ⟨4, .tool_use (some "t5") none⟩, ⟨5, .tool_use (some "t6") none⟩,
         ⟨6, .message "assistant" [.text "done"]⟩] ∧
    (runAnalysisFrom envA cfgQuickPlain (initState [] [])
      [⟨0, .tool_use (some "t1") none⟩, ⟨1, .tool_use (some "t2") none⟩,
       ⟨2, .tool_use (some "t3") none⟩, ⟨3, .tool_use (some "t4") none⟩,
       ⟨4, .tool_use (some "t5") none⟩, ⟨5, .tool_use (some "t6") none⟩,
       ⟨6, .message "assistant" [.text "done"]⟩] 6).2.executed.length =
      cfgQuickPlain.maxToolCalls ∧
    (runAnalysisFrom envA cfgQuickPlain (initState [] [])
      [⟨0, .tool_use (some "t1") none⟩, ⟨1, .tool_use (some "t2") none⟩,
       ⟨2, .tool_use (some "t3") none⟩, ⟨3, .tool_use (some "t4") none⟩,
       ⟨4, .tool_use (some "t5") none⟩, ⟨5, .tool_use (some "t6") none⟩,
       ⟨6, .message "assistant" [.text "done"]⟩] 6).1.report =
      assistantText
        [⟨0, .tool_use (some "t1") none⟩, ⟨1, .tool_use (some "t2") none⟩,
         ⟨2, .tool_use (some "t3") none⟩, ⟨3, .tool_use (some "t4") none⟩,
         ⟨4, .tool_use (some "t5") none⟩, ⟨5, .tool_use (some "t6") none⟩,
         ⟨6, .message "assistant" [.text "done"]⟩] :=
  c3_budget_exceeded envA cfgQuickPlain _ 6 [] [] rfl (by decide) (by decide) (by decide)

/-- Counterexample to Claim C1 as stated: with the effective budget forced
to zero (deep mode, `allowWebTools=false`), a single `tool_use` event with
no timeout and no stream error leaves the run with `interrupted = true` —
the zero budget does, by itself, set the interrupted flag, via the shared
over-budget branch. -/
theorem c1_counterexample :
    (runAnalysisFrom envA cfgDeepNoWeb (initState [] [])
      [⟨0, .tool_use (some "web_search") none⟩] 0).1.interrupted = true := by rfl

/-- Claim C1 (amended): when the effective tool-call budget is zero, every
tool call is indeed skipped (never executed) from the first one, but the
first `tool_use` event marks the run interrupted through the over-budget
branch (`toolCallCount > maxToolCalls` holds immediately); `interrupted`
stays false only when no `tool_use` event occurs at all (absent other
causes such as timeout). -/
theorem c1_zero_budget_amended (env : RunEnv) (cfg : RunConfig)
    (events : List TimedEvent) (tEnd : Nat)
    (pend : List (String × PendingApproval)) (appr : List (String × Bool))
    (hweb : cfg.allowWebTools = false)
    (hreq : cfg.requireToolApproval = false)
    (htime : ∀ te ∈ events, te.elapsed ≤ cfg.timeout) :
    (runAnalysisFrom env cfg (initState pend appr) events tEnd).2.executed = [] ∧
    (0 < countToolUses events →
      (runAnalysisFrom env cfg (initState pend appr) events tEnd).1.interrupted = true) ∧
    (countToolUses events = 0 →
      (runAnalysisFrom env cfg (initState pend appr) events tEnd).1.interrupted = false) := by
  have hB0 : cfg.maxToolCalls = 0 := maxToolCalls_zero hweb
  have hchar := runLoop_noGate_char env cfg hreq events (initState pend appr) htime
  have hrun := runAnalysisFrom_completed hchar tEnd
  rw [hrun]
  refine ⟨?_, ?_, ?_⟩
  · rw [(finalizeNormal_fields env cfg _ tEnd).2.2.2.1]
    simp [initState, hB0, execNames_zero]
  · intro hN
    rw [(finalizeNormal_fields env cfg _ tEnd).1]
    simp [initState, decide_eq_true_eq, hB0]
    omega
  · intro hN
    rw [(finalizeNormal_fields env cfg _ tEnd).1]
    simp [initState, hN]

/-- Witness for the amended C1: one tool call and one assistant message,
zero budget. -/
theorem c1_zero_budget_amended_witness :
    (runAnalysisFrom envA cfgDeepNoWeb (initState [] [])
      [⟨0, .tool_use (some "web_search") none⟩,
       ⟨1, .message "assistant" [.text "hi"]⟩] 1).2.executed = [] ∧
    (0 < countToolUses
        [⟨0, .tool_use (some "web_search") none⟩,
         ⟨1, .message "assistant" [.text "hi"]⟩] →
      (runAnalysisFrom envA cfgDeepNoWeb (initState [] [])
        [⟨0, .tool_use (some "web_search") none⟩,
         ⟨1, .message "assistant" [.text "hi"]⟩] 1).1.interrupted = true) ∧
    (countToolUses
        [⟨0, .tool_use (some "web_search") none⟩,
         ⟨1, .message "assistant" [.text "hi"]⟩] = 0 →
      (runAnalysisFrom envA cfgDeepNoWeb (initState [] [])
        [⟨0, .tool_use (some "web_search") none⟩,
         ⟨1, .message "assistant" [.text "hi"]⟩] 1).1.interrupted = false) :=
  c1_zero_budget_amended envA cfgDeepNoWeb _ 1 [] [] rfl rfl (by decide)

/-- Counterexample to Claim C2 as stated: on the approval-suspension
termination path the progress is `round(100·elapsed/timeout)` with no 95
cap — a gated call consumed at `elapsed = timeout` yields a result with
`interrupted = true` and `progress = 100`. -/
theorem c2_counterexample :
    (runAnalysisFrom envA cfgQuickGated (initState [] [])
      [⟨120000, .tool_use (some "firecrawl_search") none⟩] 120000).1.interrupted = true ∧
    (runAnalysisFrom envA cfgQuickGated (initState [] [])
      [⟨120000, .tool_use (some "firecrawl_search") none⟩] 120000).1.progress = 100 := by
  exact ⟨rfl, rfl⟩

/-- Claim C2 (amended): on every termination path of `runAnalysis` other
than approval-suspension, an interrupted result reports progress at most
95 (per the capped formulas) and progress 100 exactly when not
interrupted; the approval-suspension path computes
`round(100·elapsed/timeout)` without the 95 cap. -/
theorem c2_progress_bounds (env : RunEnv) (cfg : RunConfig) (st : LoopState)
    (events : List TimedEvent) (tEnd : Nat)
    (hns : ∀ e, (runLoop env cfg st events).2 ≠ .suspended e) :
    ((runAnalysisFrom env cfg st events tEnd).1.interrupted = true →
      (runAnalysisFrom env cfg st events tEnd).1.progress ≤ 95) ∧
    ((runAnalysisFrom env cfg st events tEnd).1.interrupted = false →
      (runAnalysisFrom env cfg st events tEnd).1.progress = 100) ∧
    ((runAnalysisFrom env cfg st events tEnd).1.progress = 100 →
      (runAnalysisFrom env cfg st events tEnd).1.interrupted = false) := by
  rcases hl : runLoop env cfg st events with ⟨st', oc⟩
  cases oc with
  | suspended e => exact absurd (by rw [hl]) (hns e)
  | completed =>
    rw [runAnalysisFrom_completed hl tEnd]
    obtain ⟨hfi, hp95, hp100⟩ := finalizeNormal_progress env cfg st' tEnd
    refine ⟨?_, ?_, ?_⟩
    · intro h; rw [hfi] at h; exact hp95 h
    · intro h; rw [hfi] at h; exact hp100 h
    · intro h
      by_cases hi : st'.interrupted = true
      · have h95 := hp95 hi
        rw [h] at h95
        exact absurd h95 (by omega)
      · rw [hfi]; simpa using hi
  | timedOut =>
    rw [runAnalysisFrom_timedOut hl tEnd]
    obtain ⟨hfi, hp95, hp100⟩ := finalizeNormal_progress env cfg st' tEnd
    refine ⟨?_, ?_, ?_⟩
    · intro h; rw [hfi] at h; exact hp95 h
    · intro h; rw [hfi] at h; exact hp100 h
    · intro h
      by_cases hi : st'.interrupted = true
      · have h95 := hp95 hi
        rw [h] at h95
        exact absurd h95 (by omega)
      · rw [hfi]; simpa using hi

/-- Witness for the amended C2 on an empty (non-suspending) stream. -/
theorem c2_progress_bounds_witness :
    ((runAnalysisFrom envA cfgQuickPlain (initState [] []) [] 0).1.interrupted = true →
      (runAnalysisFrom envA cfgQuickPlain (initState [] []) [] 0).1.progress ≤ 95) ∧
    ((runAnalysisFrom envA cfgQuickPlain (initState [] []) [] 0).1.interrupted = false →
      (runAnalysisFrom envA cfgQuickPlain (initState [] []) [] 0).1.progress = 100) ∧
    ((runAnalysisFrom envA cfgQuickPlain (initState [] []) [] 0).1.progress = 100 →
      (runAnalysisFrom envA cfgQuickPlain (initState [] []) [] 0).1.interrupted = false) :=
  c2_progress_bounds envA cfgQuickPlain (initState [] []) [] 0
    (fun e h => by simp [runLoop] at h)

theorem approvalIdAt_ne_empty (env : RunEnv) (elapsed idIdx : Nat) :
    approvalIdAt env elapsed idIdx ≠ "" := by
  intro h
  have hl := congrArg String.length h
  rw [approvalIdAt, String.length_append, String.length_append,
    String.length_append] at hl
  have h9 : "approval_".length = 9 := rfl
  have h0 : ("" : String).length = 0 := rfl
  rw [h9, h0] at hl
  omega

theorem stepToolUse_gated_undecided (env : RunEnv) (cfg : RunConfig) (st : LoopState)
    (t s : String) (ta : Option Json) (e : Nat)
    (hreq : cfg.requireToolApproval = true)
    (hsess : cfg.sessionId = some s)
    (ht : t ≠ "") (hs : s ≠ "")
    (hfc : jsStartsWith t "firecrawl_" = true)
    (hund : alookup st.approvedTools (s ++ ":" ++ t) = none) :
    stepToolUse env cfg st (some t) ta e =
      .suspend
        { approvalId := approvalIdAt env e st.idsIssued, toolName := t,
          toolArgs := ta, sessionId := s,
          checkpointId := env.cpResult st.cpAttempts }
        { st with cpAttempts := st.cpAttempts + 1,
                  idsIssued := st.idsIssued + 1,
                  pendingApprovals := aset st.pendingApprovals
                    (approvalIdAt env e st.idsIssued)
                    { approvalId := approvalIdAt env e st.idsIssued, sessionId := s,
                      toolName := t, toolArgs := ta,
                      timestamp := env.startTime + e } } := by
  simp [stepToolUse, hsess, hreq, ht, hs, hfc, hund]

theorem stepToolUse_gated_rejected (env : RunEnv) (cfg : RunConfig) (st : LoopState)
    (t s : String) (ta : Option Json) (e : Nat)
    (hreq : cfg.requireToolApproval = true)
    (hsess : cfg.sessionId = some s)
    (ht : t ≠ "") (hs : s ≠ "")
    (hfc : jsStartsWith t "firecrawl_" = true)
    (hrej : alookup st.approvedTools (s ++ ":" ++ t) = some false) :
    stepToolUse env cfg st (some t) ta e = .next st := by
  simp [stepToolUse, hsess, hreq, ht, hs, hfc, hrej]

theorem runLoop_cons_timeout {env : RunEnv} {cfg : RunConfig} {st st' : LoopState}
    {te : TimedEvent} (h : stepEvent env cfg st te = .timeoutBrk st')
    (rest : List TimedEvent) :
    runLoop env cfg st (te :: rest) = (st', .timedOut) := by
  rw [runLoop, h]

theorem approvalResponse_pending (env : RunEnv) (cfg : RunConfig) (st : LoopState)
    (e : PendingApprovalError) (tEnd : Nat) :
    (approvalResponse env cfg st e tEnd).2.pendingApprovals = st.pendingApprovals := by
  cases hcp : e.checkpointId <;> cases hcr : env.cpResult st.cpAttempts <;>
    simp [approvalResponse, hcp, hcr]

/-- Claim C5: the first call to a gated (`firecrawl_`-prefixed) tool in a
session with approval required and no recorded decision attempts a
checkpoint, allocates exactly one new `PendingApproval`, and terminates
the run immediately (the remaining events are never consumed) in a
suspended result with `needsApproval = true`, a non-empty approval id, the
tool name, the tool arguments, and — when checkpoint creation succeeded —
that checkpoint id. -/
theorem c5_first_gated_call (env : RunEnv) (cfg : RunConfig) (st : LoopState)
    (t s : String) (ta : Option Json) (e tEnd : Nat) (rest : List TimedEvent)
    (hreq : cfg.requireToolApproval = true)
    (hsess : cfg.sessionId = some s)
    (ht : t ≠ "") (hs : s ≠ "")
    (hfc : jsStartsWith t "firecrawl_" = true)
    (hund : alookup st.approvedTools (s ++ ":" ++ t) = none)
    (hte : e ≤ cfg.timeout) :
    (runAnalysisFrom env cfg st (⟨e, .tool_use (some t) ta⟩ :: rest) tEnd).1.needsApproval = true ∧
    (runAnalysisFrom env cfg st (⟨e, .tool_use (some t) ta⟩ :: rest) tEnd).1.approvalId =
      some (approvalIdAt env e st.idsIssued) ∧
    approvalIdAt env e st.idsIssued ≠ "" ∧
    (runAnalysisFrom env cfg st (⟨e, .tool_use (some t) ta⟩ :: rest) tEnd).1.toolName = some t ∧
    (runAnalysisFrom env cfg st (⟨e, .tool_use (some t) ta⟩ :: rest) tEnd).1.toolArgs = ta ∧
    (∀ c, env.cpResult st.cpAttempts = some c →
      (runAnalysisFrom env cfg st (⟨e, .tool_use (some t) ta⟩ :: rest) tEnd).1.checkpointId =
        some c) ∧
    (runAnalysisFrom env cfg st (⟨e, .tool_use (some t) ta⟩ :: rest) tEnd).2.pendingApprovals =
      aset st.pendingApprovals (approvalIdAt env e st.idsIssued)
        { approvalId := approvalIdAt env e st.idsIssued, sessionId := s, toolName := t,
          toolArgs := ta, timestamp := env.startTime + e } := by
  have hnt : ¬ cfg.timeout < e := by omega
  have hstep : stepEvent env cfg st ⟨e, .tool_use (some t) ta⟩ =
      .suspend
        { approvalId := approvalIdAt env e st.idsIssued, toolName := t,
          toolArgs := ta, sessionId := s,
          checkpointId := env.cpResult st.cpAttempts }
        { st with toolCallCount := st.toolCallCount + 1,
                  cpAttempts := st.cpAttempts + 1,
                  idsIssued := st.idsIssued + 1,
                  pendingApprovals := aset st.pendingApprovals
                    (approvalIdAt env e st.idsIssued)
                    { approvalId := approvalIdAt env e st.idsIssued, sessionId := s,
                      toolName := t, toolArgs := ta,
                      timestamp := env.startTime + e } } := by
    simp only [stepEvent, if_neg hnt]
    exact stepToolUse_gated_undecided env cfg _ t s ta e hreq hsess ht hs hfc hund
  have hl := runLoop_cons_suspend hstep rest
  rw [runAnalysisFrom_suspended hl tEnd]
  refine ⟨?_, ?_, approvalIdAt_ne_empty env e st.idsIssued, ?_, ?_, ?_, ?_⟩
  · cases hcr : env.cpResult st.cpAttempts <;> simp [approvalResponse, hcr]
  · cases hcr : env.cpResult st.cpAttempts <;> simp [approvalResponse, hcr]
  · cases hcr : env.cpResult st.cpAttempts <;> simp [approvalResponse, hcr]
  · cases hcr : env.cpResult st.cpAttempts <;> simp [approvalResponse, hcr]
  · intro c hc
    simp [approvalResponse, hc]
  · exact approvalResponse_pending env cfg _ _ tEnd

/-- Witness for C5: first gated call in session `s1` with no decision. -/
theorem c5_first_gated_call_witness :
    (runAnalysisFrom envA cfgQuickGated (initState [] [])
      (⟨0, .tool_use (some "firecrawl_search") none⟩ :: []) 0).1.needsApproval = true ∧
    (runAnalysisFrom envA cfgQuickGated (initState [] [])
      (⟨0, .tool_use (some "firecrawl_search") none⟩ :: []) 0).1.approvalId =
      some (approvalIdAt envA 0 (initState [] []).idsIssued) ∧
    approvalIdAt envA 0 (initState [] []).idsIssued ≠ "" ∧
    (runAnalysisFrom envA cfgQuickGated (initState [] [])
      (⟨0, .tool_use (some "firecrawl_search") none⟩ :: []) 0).1.toolName =
      some "firecrawl_search" ∧
    (runAnalysisFrom envA cfgQuickGated (initState [] [])
      (⟨0, .tool_use (some "firecrawl_search") none⟩ :: []) 0).1.toolArgs = none ∧
    (∀ c, envA.cpResult (initState [] []).cpAttempts = some c →
      (runAnalysisFrom envA cfgQuickGated (initState [] [])
        (⟨0, .tool_use (some "firecrawl_search") none⟩ :: []) 0).1.checkpointId =
        some c) ∧
    (runAnalysisFrom envA cfgQuickGated (initState [] [])
      (⟨0, .tool_use (some "firecrawl_search") none⟩ :: []) 0).2.pendingApprovals =
      aset (initState [] []).pendingApprovals
        (approvalIdAt envA 0 (initState [] []).idsIssued)
        { approvalId := approvalIdAt envA 0 (initState [] []).idsIssued,
          sessionId := "s1", toolName := "firecrawl_search",
          toolArgs := none, timestamp := envA.startTime + 0 } :=
  c5_first_gated_call envA cfgQuickGated (initState [] []) "firecrawl_search" "s1"
    none 0 0 [] rfl rfl (by decide) (by decide) (by decide) rfl (by decide)

/-- Claim C8: a gated call whose recorded decision is `approved = false`
is skipped without executing and without suspending — processing the event
only increments the tool-call counter, no new `PendingApproval` is
created, and the loop continues over the remaining events exactly as it
would from the incremented state. -/
theorem c8_rejected_skip (env : RunEnv) (cfg : RunConfig) (st : LoopState)
    (t s : String) (ta : Option Json) (e : Nat) (rest : List TimedEvent)
    (hreq : cfg.requireToolApproval = true)
    (hsess : cfg.sessionId = some s)
    (ht : t ≠ "") (hs : s ≠ "")
    (hfc : jsStartsWith t "firecrawl_" = true)
    (hrej : alookup st.approvedTools (s ++ ":" ++ t) = some false)
    (hte : e ≤ cfg.timeout) :
    runLoop env cfg st (⟨e, .tool_use (some t) ta⟩ :: rest) =
      runLoop env cfg { st with toolCallCount := st.toolCallCount + 1 } rest := by
  have hnt : ¬ cfg.timeout < e := by omega
  have hstep : stepEvent env cfg st ⟨e, .tool_use (some t) ta⟩ =
      .next { st with toolCallCount := st.toolCallCount + 1 } := by
    simp only [stepEvent, if_neg hnt]
    exact stepToolUse_gated_rejected env cfg _ t s ta e hreq hsess ht hs hfc hrej
  exact runLoop_cons_next hstep rest

/-- Witness for C8: rejected decision for `(s1, firecrawl_search)`. -/
theorem c8_rejected_skip_witness :
    runLoop envA cfgQuickGated (initState [] [("s1:firecrawl_search", false)])
      (⟨0, .tool_use (some "firecrawl_search") none⟩ ::
        [⟨1, .message "assistant" [.text "done"]⟩]) =
      runLoop envA cfgQuickGated
        { initState [] [("s1:firecrawl_search", false)] with
          toolCallCount := (initState [] [("s1:firecrawl_search", false)]).toolCallCount + 1 }
        [⟨1, .message "assistant" [.text "done"]⟩] :=
  c8_rejected_skip envA cfgQuickGated (initState [] [("s1:firecrawl_search", false)])
    "firecrawl_search" "s1" none 0 [⟨1, .message "assistant" [.text "done"]⟩]
    rfl rfl (by decide) (by decide) (by decide) (by decide) (by decide)

/-- Counterexample to Claim C4 as stated: a first gated call in session
`s1` suspends run 1 and records one `PendingApproval`; a second run before
any decision (the decision map is still empty) creates a second
`PendingApproval` for the same `(session, tool)` pair — the map then holds
two outstanding entries for `(s1, firecrawl_search)`. -/
theorem c4_counterexample :
    countPendingFor
      (runAnalysisFrom envB cfgQuickGated
        (initState
          (runAnalysisFrom envA cfgQuickGated (initState [] [])
            [⟨0, .tool_use (some "firecrawl_search") none⟩] 0).2.pendingApprovals
          [])
        [⟨0, .tool_use (some "firecrawl_search") none⟩] 0).2.pendingApprovals
      "s1" "firecrawl_search" = 2 := by rfl

theorem budgetCheck_next_shape (cfg : RunConfig) (st : LoopState) (tn : Option String) :
    ∃ st', budgetCheck cfg st tn = .next st' ∧ st'.pendingApprovals = st.pendingApprovals := by
  unfold budgetCheck
  split
  · split
    · exact ⟨st, rfl, rfl⟩
    · exact ⟨_, rfl, rfl⟩
  · exact ⟨_, rfl, rfl⟩

theorem stepToolUse_pending (env : RunEnv) (cfg : RunConfig) (st : LoopState)
    (tn : Option String) (ta : Option Json) (e : Nat) :
    (stepToolUse env cfg st tn ta e).state.pendingApprovals.length ≤
      st.pendingApprovals.length + 1 ∧
    ∀ st', stepToolUse env cfg st tn ta e = .next st' →
      st'.pendingApprovals = st.pendingApprovals := by
  unfold stepToolUse
  split
  · split
    · split
      · constructor
        · simpa [StepOut.state] using aset_length_le st.pendingApprovals _ _
        · intro st' h
          exact absurd h (by simp)
      · refine ⟨by simp [StepOut.state], fun st' h => ?_⟩
        injection h with h2
        rw [← h2]
      · obtain ⟨st'', hbc, hpend⟩ := budgetCheck_next_shape cfg st _
        rw [hbc]
        refine ⟨by simp [StepOut.state, hpend], fun st' h => ?_⟩
        injection h with h2
        rw [← h2]
        exact hpend
    · obtain ⟨st'', hbc, hpend⟩ := budgetCheck_next_shape cfg st _
      rw [hbc]
      refine ⟨by simp [StepOut.state, hpend], fun st' h => ?_⟩
      injection h with h2
      rw [← h2]
      exact hpend
  · obtain ⟨st'', hbc, hpend⟩ := budgetCheck_next_shape cfg st _
    rw [hbc]
    refine ⟨by simp [StepOut.state, hpend], fun st' h => ?_⟩
    injection h with h2
    rw [← h2]
    exact hpend

theorem stepError_pending (env : RunEnv) (cfg : RunConfig) (st : LoopState)
    (msg : String) (e : Nat) :
    (stepError env cfg st msg e).state.pendingApprovals.length ≤
      st.pendingApprovals.length + 1 ∧
    ∀ st', stepError env cfg st msg e = .next st' →
      st'.pendingApprovals = st.pendingApprovals := by
  constructor
  · rcases hsess : cfg.sessionId with _ | s
    · simp [stepError, hsess, StepOut.state]
    · cases hra : cfg.requireToolApproval with
      | false => simp [stepError, hsess, hra, StepOut.state]
      | true =>
        by_cases hse : s = ""
        · simp [stepError, hsess, hra, hse, StepOut.state]
        · cases h1 : jsIncludes msg "firecrawl_search" with
          | true =>
            rcases hlk : alookup st.approvedTools (s ++ ":" ++ "firecrawl_search") with _ | b
            · simp [stepError, hsess, hra, hse, h1, hlk, StepOut.state]
              exact aset_length_le _ _ _
            · simp [stepError, hsess, hra, hse, h1, hlk, StepOut.state]
          | false =>
            cases h2 : jsIncludes msg "firecrawl_scrape" with
            | false => simp [stepError, hsess, hra, hse, h1, h2, StepOut.state]
            | true =>
              rcases hlk : alookup st.approvedTools (s ++ ":" ++ "firecrawl_scrape") with _ | b
              · simp [stepError, hsess, hra, hse, h1, h2, hlk, StepOut.state]
                exact aset_length_le _ _ _
              · simp [stepError, hsess, hra, hse, h1, h2, hlk, StepOut.state]
  · intro st' h
    rcases hsess : cfg.sessionId with _ | s
    · simp [stepError, hsess] at h
      rw [← h]
    · cases hra : cfg.requireToolApproval with
      | false =>
        simp [stepError, hsess, hra] at h
        rw [← h]
      | true =>
        by_cases hse : s = ""
        · simp [stepError, hsess, hra, hse] at h
          rw [← h]
        · cases h1 : jsIncludes msg "firecrawl_search" with
          | true =>
            rcases hlk : alookup st.approvedTools (s ++ ":" ++ "firecrawl_search") with _ | b
            · simp [stepError, hsess, hra, hse, h1, hlk] at h
            · simp [stepError, hsess, hra, hse, h1, hlk] at h
              rw [← h]
          | false =>
            cases h2 : jsIncludes msg "firecrawl_scrape" with
            | false =>
              simp [stepError, hsess, hra, hse, h1, h2] at h
              rw [← h]
            | true =>
              rcases hlk : alookup st.approvedTools (s ++ ":" ++ "firecrawl_scrape") with _ | b
              · simp [stepError, hsess, hra, hse, h1, h2, hlk] at h
              · simp [stepError, hsess, hra, hse, h1, h2, hlk] at h
                rw [← h]

theorem stepEvent_pending (env : RunEnv) (cfg : RunConfig) (st : LoopState)
    (te : TimedEvent) :
    (stepEvent env cfg st te).state.pendingApprovals.length ≤
      st.pendingApprovals.length + 1 ∧
    ∀ st', stepEvent env cfg st te = .next st' →
      st'.pendingApprovals = st.pendingApprovals := by
  unfold stepEvent
  split
  · refine ⟨by simp [StepOut.state], fun st' h => ?_⟩
    exact absurd h (by simp)
  · split
    · exact stepToolUse_pending env cfg _ _ _ _
    · exact stepError_pending env cfg _ _ _
    · split
      · refine ⟨by simp [StepOut.state], fun st' h => ?_⟩
        injection h with h2
        rw [← h2]
      · refine ⟨by simp [StepOut.state], fun st' h => ?_⟩
        injection h with h2
        rw [← h2]

theorem runLoop_pending_le (env : RunEnv) (cfg : RunConfig) :
    ∀ (events : List TimedEvent) (st : LoopState),
      (runLoop env cfg st events).1.pendingApprovals.length ≤
        st.pendingApprovals.length + 1 := by
  intro events
  induction events with
  | nil => intro st; simp [runLoop]
  | cons te rest ih =>
    intro st
    obtain ⟨hle, hnext⟩ := stepEvent_pending env cfg st te
    cases hstep : stepEvent env cfg st te with
    | next st' =>
      rw [runLoop_cons_next hstep rest]
      have h2 := ih st'
      rw [hnext st' hstep] at h2
      exact h2
    | timeoutBrk st' =>
      rw [runLoop_cons_timeout hstep rest]
      rw [hstep] at hle
      simpa [StepOut.state] using hle
    | suspend e st' =>
      rw [runLoop_cons_suspend hstep rest]
      rw [hstep] at hle
      simpa [StepOut.state] using hle

/-- Claim C4 (amended): within a single `runAnalysis` invocation at most
one `PendingApproval` is created (allocation immediately suspends the
run), so the pending map grows by at most one entry per run; the
per-`(session, tool)` uniqueness claimed across runs does not hold — a
resumed run before any decision allocates a second entry under a fresh
approval id. -/
theorem c4_at_most_one_new_pending (env : RunEnv) (cfg : RunConfig) (st : LoopState)
    (events : List TimedEvent) (tEnd : Nat) :
    (runAnalysisFrom env cfg st events tEnd).2.pendingApprovals.length ≤
      st.pendingApprovals.length + 1 := by
  rcases hl : runLoop env cfg st events with ⟨st', oc⟩
  have hb := runLoop_pending_le env cfg events st
  rw [hl] at hb
  cases oc with
  | completed =>
    rw [runAnalysisFrom_completed hl tEnd,
      (finalizeNormal_fields env cfg st' tEnd).2.2.2.2]
    exact hb
  | timedOut =>
    rw [runAnalysisFrom_timedOut hl tEnd,
      (finalizeNormal_fields env cfg st' tEnd).2.2.2.2]
    exact hb
  | suspended e =>
    rw [runAnalysisFrom_suspended hl tEnd, approvalResponse_pending env cfg st' e tEnd]
    exact hb

/-- Counterexample to Claim C9 as stated: an approval request raised from
the secondary gated-tool-error path does carry a checkpoint when the fallback save of the catch
handler succeeds — the error event suspends with
`checkpointId = none` in the signal, but the returned result snapshots
error-time state via the fallback `createCheckpoint` and reports its id. -/
theorem c9_counterexample :
    (runAnalysisFrom envA cfgQuickGated (initState [] [])
      [⟨0, .error "firecrawl_search: invalid arguments"⟩] 0).1.needsApproval = true ∧
    (runAnalysisFrom envA cfgQuickGated (initState [] [])
      [⟨0, .error "firecrawl_search: invalid arguments"⟩] 0).1.checkpointId =
      some "cp1" := ⟨rfl, rfl⟩

/-- Claim C9 (amended): on the approval-suspension path the run returns
its approval result immediately, but when the suspension signal carries no
checkpoint id (in particular on the gated-tool-error path) the handler
attempts exactly one fallback checkpoint save, and the result carries the
fallback checkpoint id whenever that save succeeds; the error-path
approval is checkpoint-free only when the fallback save also fails. -/
theorem c9_error_path_checkpoint (env : RunEnv) (cfg : RunConfig) (st : LoopState)
    (events : List TimedEvent) (tEnd : Nat) (st' : LoopState)
    (e : PendingApprovalError)
    (hl : runLoop env cfg st events = (st', .suspended e))
    (hcp : e.checkpointId = none) :
    (runAnalysisFrom env cfg st events tEnd).1.needsApproval = true ∧
    (runAnalysisFrom env cfg st events tEnd).1.approvalId = some e.approvalId ∧
    (runAnalysisFrom env cfg st events tEnd).2.cpAttempts = st'.cpAttempts + 1 ∧
    (∀ c, env.cpResult st'.cpAttempts = some c →
      (runAnalysisFrom env cfg st events tEnd).1.checkpointId = some c) := by
  rw [runAnalysisFrom_suspended hl tEnd]
  refine ⟨?_, ?_, ?_, ?_⟩
  · cases hcr : env.cpResult st'.cpAttempts <;> simp [approvalResponse, hcp, hcr]
  · cases hcr : env.cpResult st'.cpAttempts <;> simp [approvalResponse, hcp, hcr]
  · cases hcr : env.cpResult st'.cpAttempts <;> simp [approvalResponse, hcp, hcr]
  · intro c hc
    simp [approvalResponse, hcp, hc]

/-- The event stream of the C9 scenario: one gated-tool error event. -/
def errEvC9 : List TimedEvent := [⟨0, .error "firecrawl_search: invalid arguments"⟩]

/-- The suspension signal thrown in the C9 scenario (no checkpoint). -/
def errC9 : PendingApprovalError :=
  { approvalId := approvalIdAt envA 0 0, toolName := "firecrawl_search",
    toolArgs := some (.obj [("note", .str "Tool will be called with corrected parameters")]),
    sessionId := "s1", checkpointId := none }

/-- The loop state at suspension in the C9 scenario. -/
def stC9 : LoopState :=
  { toolCallCount := 0, hasWarned := false, interrupted := false,
    finalOutput := "", lastCheckpointId := none, executed := [], warnings := 0,
    pendingApprovals := [(approvalIdAt envA 0 0,
      { approvalId := approvalIdAt envA 0 0, sessionId := "s1",
        toolName := "firecrawl_search",
        toolArgs := some (.obj [("note", .str "Tool parameters will be fixed after approval")]),
        timestamp := 0 })],
    approvedTools := [], cpAttempts := 0, idsIssued := 1 }

/-- Witness for the amended C9 at the concrete error-path scenario. -/
theorem c9_error_path_checkpoint_witness :
    (runAnalysisFrom envA cfgQuickGated (initState [] []) errEvC9 0).1.needsApproval = true ∧
    (runAnalysisFrom envA cfgQuickGated (initState [] []) errEvC9 0).1.approvalId =
      some errC9.approvalId ∧
    (runAnalysisFrom envA cfgQuickGated (initState [] []) errEvC9 0).2.cpAttempts =
      stC9.cpAttempts + 1 ∧
    (∀ c, envA.cpResult stC9.cpAttempts = some c →
      (runAnalysisFrom envA cfgQuickGated (initState [] []) errEvC9 0).1.checkpointId =
        some c) :=
  c9_error_path_checkpoint envA cfgQuickGated (initState [] []) errEvC9 0 stC9 errC9
    (by rfl) rfl
